import Mathlib

/-!
# Verification of the pairwise-alignment core (`alignment/aligner.py`)

Shallow embedding of the `Aligner` class: matrix initialisation (`init_matrix`),
the Needleman-Wunsch / Smith-Waterman fill (`align` / `cell` /
`check_non_negativity`), and the two traceback procedures
(`select_global_alignment`, `select_local_alignment`).

Modelling conventions:
* scores are rationals (`ℚ`), standing in for the exact values of the Python
  floats: every claim under study is about exact arithmetic identities;
* the substitution table `self.weights` (a pandas DataFrame) is an arbitrary
  function `Char → Char → ℚ`; `weights.loc[(a, b)]` becomes `A.weights a b`.
  The table files `PAM250.txt` / `BLOSUM62.txt` are external resources, so a
  loaded table is only constrained by the spec (symmetric, covering the
  alphabet and the gap symbol);
* Python string indexing `s[k]` (which accepts negative indices counting from
  the end, and raises `IndexError` out of range) becomes `pyGet`, returning
  `Option Char`;
* the unbounded `while` loops of the tracebacks become fuel-indexed recursion;
  an iteration in which no neighbour test fires leaves `current` unchanged in
  the source, so it only consumes fuel here (`.outOfFuel` models divergence),
  and a raised exception is `.raised`.
-/

/-- Score matrices, indexed by (row, column); row 0 / column 0 are the border. -/
abbrev Mat : Type := Nat → Nat → ℚ

/-- The state of an `Aligner` instance after `__init__` has stored its inputs:
the two (already upper-cased) sequences, the three scalar weights, the
substitution table and the local/global flag.  `match` and `local` are Lean
keywords, hence `matchW` and `localMode`. -/
structure Aligner where
  seq1 : List Char
  seq2 : List Char
  matchW : ℚ
  mismatch : ℚ
  gap : ℚ
  weights : Char → Char → ℚ
  localMode : Bool

/-- Python string/list indexing: `s[i]` for `i : ℤ`.  A negative index counts
from the end; an index out of range yields `none` (an `IndexError`). -/
def pyGet (s : List Char) (i : Int) : Option Char :=
  if 0 ≤ i then s.get? i.toNat
  else if 0 ≤ (s.length : Int) + i then s.get? ((s.length : Int) + i).toNat
  else none

/-- `check_non_negativity`: in local mode a computed cell is clamped to
`max(0, result)`; in global mode it is returned unchanged. -/
def check_non_negativity (A : Aligner) (result : ℚ) : ℚ :=
  if A.localMode then max 0 result else result

/-- The running `counter` of `init_matrix` after `k` border steps along the
padded sequence `'-' + s`: each step adds `self.gap` plus the weight of the
pair (gap, symbol at this border position). -/
def borderCounter (A : Aligner) (s : List Char) : Nat → ℚ
  | 0 => 0
  | k + 1 => borderCounter A s k + A.gap + A.weights '-' (('-' :: s).getD k '-')

/-- The value `init_matrix` stores at border position `k`:
`counter + weights.loc[('-', ('-' + s)[k])]`. -/
def borderVal (A : Aligner) (s : List Char) (k : Nat) : ℚ :=
  borderCounter A s k + A.weights '-' (('-' :: s).getD k '-')

/-- `init_matrix`: a zero matrix; in local mode it is returned as is, in global
mode row 0 and column 0 are overwritten with the accumulated border values
(the cell (0,0) is written by both passes, with the same value
`weights.loc[('-','-')]`). -/
def init_matrix (A : Aligner) : Mat := fun i j =>
  if A.localMode then 0
  else if i = 0 then borderVal A A.seq2 j
  else if j = 0 then borderVal A A.seq1 i
  else 0

/-- The list `available` built by `Aligner.cell` for the interior cell `(i,j)`,
in source order `[diagonal, left, up]`.  The source zips the neighbour indices
`[(i-1,j-1), (i,j-1), (i-1,j)]` with the weight keys
`[(seq1, seq2), (seq1, '-'), ('-', seq2)]`, so the *left* candidate receives
the weight of `(seq1[i-1], '-')` and the *up* candidate that of
`('-', seq2[j-1])`. -/
def cellCands (A : Aligner) (M : Mat) (i j : Nat) : List ℚ :=
  let s1 := A.seq1.getD (i - 1) '-'
  let s2 := A.seq2.getD (j - 1) '-'
  [M (i - 1) (j - 1) + (if s1 = s2 then A.matchW else A.mismatch) + A.weights s1 s2,
   M i (j - 1) + A.gap + A.weights s1 '-',
   M (i - 1) j + A.gap + A.weights '-' s2]

/-- `Aligner.cell`: the maximum of the three candidates. -/
def cell (A : Aligner) (M : Mat) (i j : Nat) : ℚ :=
  match cellCands A M i j with
  | [d, l, u] => max d (max l u)
  | _ => 0

/-- One assignment `self.matrix[i, j] = self.check_non_negativity(self.cell(i, j))`. -/
def fillCell (A : Aligner) (M : Mat) (i j : Nat) : Mat := fun p q =>
  if p = i ∧ q = j then check_non_negativity A (cell A M i j) else M p q

/-- The inner loop of `align`: row `i` filled at columns `1..j`. -/
def fillRow (A : Aligner) (i : Nat) (M : Mat) : Nat → Mat
  | 0 => M
  | j + 1 => fillCell A (fillRow A i M j) i (j + 1)

/-- The outer loop of `align`: rows `1..i`, each filled at columns
`1..len(seq2)`. -/
def fillAll (A : Aligner) (M : Mat) : Nat → Mat
  | 0 => M
  | i + 1 => fillRow A (i + 1) (fillAll A M i) A.seq2.length

/-- `self.matrix` after `__init__` and `align()`: the initial matrix with every
interior cell `(i,j)`, `1 ≤ i ≤ len(seq1)`, `1 ≤ j ≤ len(seq2)`, filled in
row-major order. -/
def alignMatrix (A : Aligner) : Mat :=
  fillAll A (init_matrix A) A.seq1.length

/-- The alignment-matrix recurrence, as a recursive function: border cells keep
their `init_matrix` value, an interior cell is the (clamped) maximum of its
three candidates.  `alignMatrix_eq` below proves that the imperative row-major
fill computes exactly this function on the matrix range. -/
def Mrec (A : Aligner) : Nat → Nat → ℚ
  | 0, j => init_matrix A 0 j
  | i + 1, 0 => init_matrix A (i + 1) 0
  | i + 1, j + 1 =>
    let s1 := A.seq1.getD i '-'
    let s2 := A.seq2.getD j '-'
    check_non_negativity A
      (max (Mrec A i j + (if s1 = s2 then A.matchW else A.mismatch) + A.weights s1 s2)
        (max (Mrec A (i + 1) j + A.gap + A.weights s1 '-')
          (Mrec A i (j + 1) + A.gap + A.weights '-' s2)))

/-- `score_pair` of the spec (§4.1): `match + sub(a,b)` if the symbols agree,
else `mismatch + sub(a,b)`. -/
def scorePair (A : Aligner) (a b : Char) : ℚ :=
  (if a = b then A.matchW else A.mismatch) + A.weights a b

/-- `score_gap` of the spec (§4.1): `gap + sub('-', x)` (the spec declares the
two argument orders interchangeable for its symmetric tables; this is the order
`init_matrix` queries). -/
def score_gap (A : Aligner) (x : Char) : ℚ :=
  A.gap + A.weights '-' x

/-- Outcome of one iteration of a traceback `for index in idx` loop. -/
inductive StepOut where
  | raised : StepOut
  | stuck : StepOut
  | move : Char × Char → Nat × Nat → StepOut
deriving DecidableEq, Repr

/-- One body of the traceback loop shared verbatim by
`select_global_alignment` and `select_local_alignment`: given the current
coordinate and the current `value`, iterate over the nonnegative neighbours in
order `[diagonal, left, up]` and take the first whose equality test fires.
The symbols `seq1[i-1]` and `seq2[j-1]` are fetched (Python indexing) before
any test runs, provided at least one neighbour survives the filter; `.raised`
models the `IndexError` when a fetch fails, `.stuck` the iteration ending with
no `break` (so `current` stays put). -/
def tracebackStep (A : Aligner) (M : Mat) (cur : Nat × Nat) (value : ℚ) : StepOut :=
  let i := cur.1
  let j := cur.2
  if i = 0 ∧ j = 0 then .stuck
  else
    match pyGet A.seq1 ((i : Int) - 1), pyGet A.seq2 ((j : Int) - 1) with
    | some s1, some s2 =>
      if (1 ≤ i ∧ 1 ≤ j) ∧
          ((value - M (i - 1) (j - 1) = A.matchW + A.weights s1 s2 ∧ s1 = s2) ∨
            value - M (i - 1) (j - 1) = A.mismatch + A.weights s1 s2) then
        .move (s1, s2) (i - 1, j - 1)
      else if 1 ≤ j ∧ value - M i (j - 1) = A.gap + A.weights '-' s2 then
        .move ('-', s2) (i, j - 1)
      else if 1 ≤ i ∧ value - M (i - 1) j = A.gap + A.weights s1 '-' then
        .move (s1, '-') (i - 1, j)
      else .stuck
    | _, _ => .raised

/-- Result of a whole traceback walk. -/
inductive WalkOut where
  | raised : WalkOut
  | outOfFuel : WalkOut
  | done : List (Char × Char) → WalkOut
deriving DecidableEq, Repr

/-- `WalkOut.done` recogniser. -/
def WalkOut.isDone : WalkOut → Prop
  | .done _ => True
  | _ => False

/-- Number of emitted pairs of a finished walk. -/
def WalkOut.accLen : WalkOut → Nat
  | .done a => a.length
  | _ => 0

/-- The `while np.any(current >= [1,1])` loop of `select_global_alignment`:
walk until the coordinate is `(0,0)`, recomputing `value = matrix[current]`
each iteration; emitted pairs accumulate end-to-start. -/
def globalLoop (A : Aligner) (M : Mat) : Nat → Nat × Nat → List (Char × Char) → WalkOut
  | _, (0, 0), acc => .done acc
  | 0, _, _ => .outOfFuel
  | fuel + 1, cur, acc =>
    match tracebackStep A M cur (M cur.1 cur.2) with
    | .raised => .raised
    | .stuck => globalLoop A M fuel cur acc
    | .move p nxt => globalLoop A M fuel nxt (p :: acc)

/-- `select_global_alignment` on the filled matrix: the walk starts at the
bottom-right corner `(len(seq1), len(seq2))`. -/
def select_global_alignment (A : Aligner) (fuel : Nat) : WalkOut :=
  globalLoop A (alignMatrix A) fuel (A.seq1.length, A.seq2.length) []

/-- The `while value != 0` loop of `select_local_alignment`, together with the
list of coordinates the walk visits.  The loop guard tests the `value`
variable assigned in the *previous* iteration (`M` at the previous cell), so
after moving onto a zero cell one further iteration still runs, and only then
does the guard see 0.  A body with no firing test leaves `current` unchanged
(fuel only); the second component records the distinct positions taken by
`current`, starting with the entry cell. -/
def localLoop (A : Aligner) (M : Mat) :
    Nat → ℚ → Nat × Nat → List (Char × Char) → WalkOut × List (Nat × Nat)
  | 0, valPrev, cur, acc =>
    if valPrev = 0 then (.done acc, [cur]) else (.outOfFuel, [cur])
  | fuel + 1, valPrev, cur, acc =>
    if valPrev = 0 then (.done acc, [cur])
    else
      let value := M cur.1 cur.2
      match tracebackStep A M cur value with
      | .raised => (.raised, [cur])
      | .stuck => localLoop A M fuel value cur acc
      | .move p nxt =>
        let r := localLoop A M fuel value nxt (p :: acc)
        (r.1, cur :: r.2)

/-- All coordinates of the `(len(seq1)+1) × (len(seq2)+1)` matrix in row-major
order, as `np.where` enumerates them. -/
def allCoords (A : Aligner) : List (Nat × Nat) :=
  (List.range (A.seq1.length + 1)).flatMap fun i =>
    (List.range (A.seq2.length + 1)).map fun j => (i, j)

/-- `self.matrix.max()`: the maximum cell value (the fold is seeded with the
cell `(0,0)`, which the coordinate list contains). -/
def matrixMax (A : Aligner) : ℚ :=
  (allCoords A).foldl (fun acc c => max acc (alignMatrix A c.1 c.2)) (alignMatrix A 0 0)

/-- `np.where(self.matrix == matrix_max)`: the row-major list of coordinates
attaining the maximum. -/
def argmaxCoords (A : Aligner) : List (Nat × Nat) :=
  (allCoords A).filter fun c => decide (alignMatrix A c.1 c.2 = matrixMax A)

/-- `select_local_alignment`: one traceback per coordinate attaining the
matrix maximum, keyed by its starting coordinate; each walk begins with
`value = matrix[start]` and an empty accumulator. -/
def select_local_alignment (A : Aligner) (fuel : Nat) :
    List ((Nat × Nat) × WalkOut) :=
  (argmaxCoords A).map fun c =>
    (c, (localLoop A (alignMatrix A) fuel (alignMatrix A c.1 c.2) c []).1)

/-- The `set_weights` outcome: which substitution table the aligner ends up
with.  The table files live outside the core, so only the selection is
modelled. -/
inductive WSpec where
  | pam : WSpec
  | blosum : WSpec
  | zero : WSpec
deriving DecidableEq, Repr

/-- Python `str.lower()`. -/
def lowerStr (s : List Char) : List Char := s.map Char.toLower

/-- `Aligner.set_weights`: a truthy name selects a file only for `'pam'` or
`'blosum'` (case-insensitive); any other nonempty name leaves `filename`
unassigned and the `pd.read_csv(filename)` call raises (an
`UnboundLocalError`), modelled as `.error name`.  A falsy argument (`False`,
or the empty string) synthesizes the zero table over the observed alphabet. -/
def set_weights (name : Option (List Char)) : Except (List Char) WSpec :=
  match name with
  | none => .ok .zero
  | some s =>
    if s = [] then .ok .zero
    else if lowerStr s = ['p', 'a', 'm'] then .ok .pam
    else if lowerStr s = ['b', 'l', 'o', 's', 'u', 'm'] then .ok .blosum
    else .error s

/-- `Aligner.__init__`: the sequences are upper-cased, then `set_weights` runs
and only afterwards is `init_matrix` evaluated — so a failing `set_weights`
aborts construction before any matrix work, and no `Aligner` state exists.
`interp` supplies the scores of whichever table was selected. -/
def alignerInit (seq1 seq2 : List Char) (matchW mismatch gap : ℚ)
    (name : Option (List Char)) (interp : WSpec → Char → Char → ℚ)
    (localMode : Bool) : Except (List Char) (Aligner × Mat) :=
  match set_weights name with
  | .error e => .error e
  | .ok ws =>
    let A : Aligner :=
      { seq1 := seq1.map Char.toUpper, seq2 := seq2.map Char.toUpper,
        matchW := matchW, mismatch := mismatch, gap := gap,
        weights := interp ws, localMode := localMode }
    .ok (A, init_matrix A)

/-- The global-traceback step exactly as claims C1/C3 word it: same neighbour
order, filter and symbol fetches as the code, but each move is accepted by the
single equality `value - M[neighbour] = score of the move`, where the diagonal
move scores `score_pair(seq1[i-1], seq2[j-1])` and the gap moves score as in
the code (`gap + sub('-', seq2[j-1])` for left, `gap + sub(seq1[i-1], '-')`
for up).  Stated from the spec's words for comparison with `tracebackStep`. -/
def claimStep (A : Aligner) (M : Mat) (cur : Nat × Nat) (value : ℚ) : StepOut :=
  let i := cur.1
  let j := cur.2
  if i = 0 ∧ j = 0 then .stuck
  else
    match pyGet A.seq1 ((i : Int) - 1), pyGet A.seq2 ((j : Int) - 1) with
    | some s1, some s2 =>
      let cands : List ((ℚ → Bool) × (Char × Char) × (Nat × Nat)) :=
        (if 1 ≤ i ∧ 1 ≤ j then
          [(fun d => decide (d = scorePair A s1 s2), (s1, s2), (i - 1, j - 1))]
         else []) ++
        (if 1 ≤ j then
          [(fun d => decide (d = A.gap + A.weights '-' s2), ('-', s2), (i, j - 1))]
         else []) ++
        (if 1 ≤ i then
          [(fun d => decide (d = A.gap + A.weights s1 '-'), (s1, '-'), (i - 1, j))]
         else [])
      match cands.find? (fun c => c.1 (value - M c.2.2.1 c.2.2.2)) with
      | some c => .move c.2.1 c.2.2
      | none => .stuck
    | _, _ => .raised

/-- The amended traceback step (claim C3, corrected): identical to `claimStep`
except that the diagonal move is accepted by the disjunction the code tests —
`value - M[diag] = match + sub` when the two symbols agree, or
`value - M[diag] = mismatch + sub` regardless of agreement. -/
def amendedStep (A : Aligner) (M : Mat) (cur : Nat × Nat) (value : ℚ) : StepOut :=
  let i := cur.1
  let j := cur.2
  if i = 0 ∧ j = 0 then .stuck
  else
    match pyGet A.seq1 ((i : Int) - 1), pyGet A.seq2 ((j : Int) - 1) with
    | some s1, some s2 =>
      let cands : List ((ℚ → Bool) × (Char × Char) × (Nat × Nat)) :=
        (if 1 ≤ i ∧ 1 ≤ j then
          [(fun d => (decide (d = A.matchW + A.weights s1 s2) && decide (s1 = s2)) ||
              decide (d = A.mismatch + A.weights s1 s2), (s1, s2), (i - 1, j - 1))]
         else []) ++
        (if 1 ≤ j then
          [(fun d => decide (d = A.gap + A.weights '-' s2), ('-', s2), (i, j - 1))]
         else []) ++
        (if 1 ≤ i then
          [(fun d => decide (d = A.gap + A.weights s1 '-'), (s1, '-'), (i - 1, j))]
         else [])
      match cands.find? (fun c => c.1 (value - M c.2.2.1 c.2.2.2)) with
      | some c => .move c.2.1 c.2.2
      | none => .stuck
    | _, _ => .raised

/-- The matrix values at the cells a local walk visits, truncated at the first
zero value (the terminating zero cell, which the claims exclude). -/
def pathValues (A : Aligner) (visited : List (Nat × Nat)) : List ℚ :=
  (visited.map fun c => alignMatrix A c.1 c.2).takeWhile fun v => !decide (v = 0)

/-- The synthesized substitution table when no name is given: zero on every
pair of the observed alphabet. -/
def zeroTable : Char → Char → ℚ := fun _ _ => 0

/-- A spec-conformant loaded substitution table (symmetric, covering the
alphabet and the gap symbol) whose gap column depends on the symbol:
`sub('A','-') = sub('-','A') = 1`, all other pairs 0. -/
def gapATable : Char → Char → ℚ := fun a b =>
  if (a = 'A' ∧ b = '-') ∨ (a = '-' ∧ b = 'A') then 1 else 0

/-- A spec-conformant loaded substitution table whose gap/gap score is 1. -/
def gapGapTable : Char → Char → ℚ := fun a b =>
  if a = '-' ∧ b = '-' then 1 else 0

/-- Aligner state for `seq1="A"`, `seq2="C"`, default scalar weights, global
mode, with the symbol-dependent gap column of `gapATable` loaded. -/
def alignerACgapA : Aligner :=
  ⟨['A'], ['C'], 1, -1, -1, gapATable, false⟩

/-- Aligner state for `seq1="AA"`, `seq2="A"`, `match=0`, `mismatch=2`,
`gap=1`, no substitution table, global mode. -/
def alignerAAA : Aligner :=
  ⟨['A', 'A'], ['A'], 0, 2, 1, zeroTable, false⟩

/-- Aligner state for `seq1=""`, `seq2="AC"`, default scalar weights, no
substitution table, global mode. -/
def alignerEmptyAC : Aligner :=
  ⟨[], ['A', 'C'], 1, -1, -1, zeroTable, false⟩

/-- Aligner state for `seq1="AB"`, `seq2="A"`, `match=1`, `mismatch=-5`,
`gap=0`, no substitution table, local mode. -/
def alignerABA : Aligner :=
  ⟨['A', 'B'], ['A'], 1, -5, 0, zeroTable, true⟩

/-- Aligner state for `seq1="A"`, `seq2="BA"`, `match=1`, `mismatch=-1`,
`gap=0`, no substitution table, local mode. -/
def alignerABAloc : Aligner :=
  ⟨['A'], ['B', 'A'], 1, -1, 0, zeroTable, true⟩

/-- Aligner state for `seq1="A"`, `seq2="A"`, default scalar weights, global
mode, with a loaded table whose gap/gap entry is 1. -/
def alignerAAgapGap : Aligner :=
  ⟨['A'], ['A'], 1, -1, -1, gapGapTable, false⟩

/-- C1.  The fill step does NOT compute the claimed decomposition: `cell` zips
the neighbours `[diagonal, left, up]` with the weight keys
`[(s1,s2), (s1,'-'), ('-',s2)]`, so the left candidate's substitution term is
`sub(seq1[i-1], '-')` — not `sub(seq2[j-1], '-')` as the claim (and the
traceback) has it, and symmetrically for up.  With `seq1="A"`, `seq2="C"` and
the table `gapATable` (`sub('A','-') = 1`, `sub('C','-') = 0`), the fill's
left candidate at cell (1,1) is `0`, while the claimed decomposition gives
`M[1,0] + score_gap('C') = -1`; the stored maximum is `0`, and the traceback —
which re-evaluates the claimed (swapped-back) scores — finds no neighbour
reproducing it and sticks.  So fill and traceback do not evaluate the same
three scores, contradicting the claim and the code's own traceback design. -/
theorem C1_fill_swaps_gap_weights :
    cellCands alignerACgapA (alignMatrix alignerACgapA) 1 1 = [-1, 0, -2] ∧
    alignMatrix alignerACgapA 1 1 = 0 ∧
    alignMatrix alignerACgapA 1 0 +
        score_gap alignerACgapA (alignerACgapA.seq2.getD 0 '-') = -1 ∧
    (cellCands alignerACgapA (alignMatrix alignerACgapA) 1 1).getD 1 0 ≠
      alignMatrix alignerACgapA 1 0 +
        score_gap alignerACgapA (alignerACgapA.seq2.getD 0 '-') ∧
    tracebackStep alignerACgapA (alignMatrix alignerACgapA) (1, 1)
        (alignMatrix alignerACgapA 1 1) = .stuck := by
  norm_num +decide [alignMatrix, fillAll, fillRow, fillCell, cell, cellCands, init_matrix,
    borderVal, borderCounter, check_non_negativity, score_gap, scorePair, tracebackStep,
    claimStep, pyGet, globalLoop, select_global_alignment, localLoop, pathValues,
    zeroTable, gapATable, gapGapTable, alignerACgapA, alignerAAA, alignerEmptyAC,
    alignerABA, alignerABAloc, alignerAAgapGap]

/-- C2 counterexample.  With the spec-conformant loaded table `gapGapTable`
(symmetric, covering the alphabet, `sub('-','-') = 1`), the built global
matrix has `M[0,0] = 1 ≠ 0`: `init_matrix` stores
`counter + weights.loc[('-','-')]` at the origin, not 0. -/
theorem C2_counterexample :
    alignMatrix alignerAAgapGap 0 0 = 1 ∧ alignMatrix alignerAAgapGap 0 0 ≠ 0 := by
  norm_num +decide [alignMatrix, fillAll, fillRow, fillCell, cell, cellCands, init_matrix,
    borderVal, borderCounter, check_non_negativity, score_gap, scorePair, tracebackStep,
    claimStep, pyGet, globalLoop, select_global_alignment, localLoop, pathValues,
    zeroTable, gapATable, gapGapTable, alignerACgapA, alignerAAA, alignerEmptyAC,
    alignerABA, alignerABAloc, alignerAAgapGap]

/-- C3 counterexample.  With `seq1="AA"`, `seq2="A"`, `match=0`, `mismatch=2`,
`gap=1` and no table, the first step of the global traceback (from cell (2,1),
stored value 3) takes the diagonal although `V - M[1,0] = 2` differs from the
score of the diagonal move (`score_pair('A','A') = match = 0`): the code also
accepts `V - M[diag] = mismatch + sub` when the symbols agree.  The claimed
first-matching-equality rule would instead take the left neighbour
(`V - M[2,0] = 1 = gap`). -/
theorem C3_counterexample :
    alignMatrix alignerAAA 2 1 = 3 ∧
    tracebackStep alignerAAA (alignMatrix alignerAAA) (2, 1) 3 =
      .move ('A', 'A') (1, 0) ∧
    claimStep alignerAAA (alignMatrix alignerAAA) (2, 1) 3 =
      .move ('-', 'A') (2, 0) ∧
    tracebackStep alignerAAA (alignMatrix alignerAAA) (2, 1) 3 ≠
      claimStep alignerAAA (alignMatrix alignerAAA) (2, 1) 3 := by
  norm_num +decide [alignMatrix, fillAll, fillRow, fillCell, cell, cellCands, init_matrix,
    borderVal, borderCounter, check_non_negativity, score_gap, scorePair, tracebackStep,
    claimStep, pyGet, globalLoop, select_global_alignment, localLoop, pathValues,
    zeroTable, gapATable, gapGapTable, alignerACgapA, alignerAAA, alignerEmptyAC,
    alignerABA, alignerABAloc, alignerAAgapGap]

/-- C6.  For `seq1=""`, `seq2="AC"` in global mode the built-and-filled matrix
is indeed a single row of cumulative gap scores `0, -1, -2`, but the traceback
does not complete: its first iteration evaluates `seq1[current[0] - 1]`, i.e.
`""[-1]`, which raises an `IndexError` (Python's negative wrap-around index on
an empty string), so no aligned pair is ever produced. -/
theorem C6_empty_seq1_raises :
    alignMatrix alignerEmptyAC 0 0 = 0 ∧
    alignMatrix alignerEmptyAC 0 1 = -1 ∧
    alignMatrix alignerEmptyAC 0 2 = -2 ∧
    select_global_alignment alignerEmptyAC 10 = .raised := by
  norm_num +decide [alignMatrix, fillAll, fillRow, fillCell, cell, cellCands, init_matrix,
    borderVal, borderCounter, check_non_negativity, score_gap, scorePair, tracebackStep,
    claimStep, pyGet, globalLoop, select_global_alignment, localLoop, pathValues,
    zeroTable, gapATable, gapGapTable, alignerACgapA, alignerAAA, alignerEmptyAC,
    alignerABA, alignerABAloc, alignerAAgapGap]

/-- C7 counterexample.  With `seq1="AB"`, `seq2="A"`, `match=1`,
`mismatch=-5`, `gap=0`, local mode, the walk from the tied maximum (2,1) moves
up to (1,1) via the gap equality `V - M[1,1] = 0 = gap`, so the visited values
are `1, 1, 0`: the sequence down to (and excluding) the terminating zero cell
is `[1, 1]`, which is not strictly decreasing. -/
theorem C7_counterexample :
    (localLoop alignerABA (alignMatrix alignerABA) 10
        (alignMatrix alignerABA 2 1) (2, 1) []).2 = [(2, 1), (1, 1), (0, 0)] ∧
    pathValues alignerABA
        (localLoop alignerABA (alignMatrix alignerABA) 10
          (alignMatrix alignerABA 2 1) (2, 1) []).2 = [1, 1] ∧
    ¬ List.Chain' (· > ·)
        (pathValues alignerABA
          (localLoop alignerABA (alignMatrix alignerABA) 10
            (alignMatrix alignerABA 2 1) (2, 1) []).2) := by
  norm_num +decide [alignMatrix, fillAll, fillRow, fillCell, cell, cellCands, init_matrix,
    borderVal, borderCounter, check_non_negativity, score_gap, scorePair, tracebackStep,
    claimStep, pyGet, globalLoop, select_global_alignment, localLoop, pathValues,
    zeroTable, gapATable, gapGapTable, alignerACgapA, alignerAAA, alignerEmptyAC,
    alignerABA, alignerABAloc, alignerAAgapGap]

/-- C8 counterexample.  With `seq1="A"`, `seq2="C"`, default scalars and the
spec-conformant loaded table `gapATable`, the filled global matrix has
`M[1,1] = 0` produced by the fill's (swapped) left candidate, but none of the
three traceback equalities holds at (1,1): `current` never changes, the
`while` loop never terminates, and the walk never reaches (0,0) — here the
fuelled model exhausts 30 iterations with the step stuck. -/
theorem C8_counterexample :
    tracebackStep alignerACgapA (alignMatrix alignerACgapA) (1, 1)
        (alignMatrix alignerACgapA 1 1) = .stuck ∧
    select_global_alignment alignerACgapA 30 = .outOfFuel := by
  norm_num +decide [alignMatrix, fillAll, fillRow, fillCell, cell, cellCands, init_matrix,
    borderVal, borderCounter, check_non_negativity, score_gap, scorePair, tracebackStep,
    claimStep, pyGet, globalLoop, select_global_alignment, localLoop, pathValues,
    zeroTable, gapATable, gapGapTable, alignerACgapA, alignerAAA, alignerEmptyAC,
    alignerABA, alignerABAloc, alignerAAgapGap]

/-- C10 counterexample.  With `seq1="A"`, `seq2="BA"`, `match=1`,
`mismatch=-1`, `gap=0`, local mode, the walk from the maximum (1,2) reaches
the border cell (0,1) and does not halt there: because the loop guard tests
the value recorded for the previous cell, one further iteration runs from
(0,1), the left equality `0 - M[0,0] = 0 = gap` fires, an extra pair
`('-','B')` is emitted and `current` moves to (0,0) before the walk stops. -/
theorem C10_counterexample :
    localLoop alignerABAloc (alignMatrix alignerABAloc) 10
        (alignMatrix alignerABAloc 1 2) (1, 2) [] =
      (.done [('-', 'B'), ('A', 'A')], [(1, 2), (0, 1), (0, 0)]) := by
  norm_num +decide [alignMatrix, fillAll, fillRow, fillCell, cell, cellCands, init_matrix,
    borderVal, borderCounter, check_non_negativity, score_gap, scorePair, tracebackStep,
    claimStep, pyGet, globalLoop, select_global_alignment, localLoop, pathValues,
    zeroTable, gapATable, gapGapTable, alignerACgapA, alignerAAA, alignerEmptyAC,
    alignerABA, alignerABAloc, alignerAAgapGap]

/-- `fillRow` writes only cells of row `i` at columns `1..jj`. -/
theorem fillRow_untouched (A : Aligner) (i : Nat) (M : Mat) :
    ∀ jj p q, p ≠ i ∨ q = 0 ∨ jj < q → fillRow A i M jj p q = M p q := by
  intro jj
  induction jj with
  | zero => intro p q _; rfl
  | succ jj ih =>
    intro p q h
    show fillCell A (fillRow A i M jj) i (jj + 1) p q = M p q
    unfold fillCell
    rw [if_neg (by omega)]
    exact ih p q (by omega)

/-- `fillAll` writes only interior cells of rows `1..ii`, columns
`1..len(seq2)`. -/
theorem fillAll_untouched (A : Aligner) (M : Mat) :
    ∀ ii p q, p = 0 ∨ ii < p ∨ q = 0 ∨ A.seq2.length < q →
      fillAll A M ii p q = M p q := by
  intro ii
  induction ii with
  | zero => intro p q _; rfl
  | succ ii ih =>
    intro p q h
    show fillRow A (ii + 1) (fillAll A M ii) A.seq2.length p q = M p q
    rw [fillRow_untouched A (ii + 1) _ _ p q (by omega)]
    exact ih p q (by omega)

/-- The fill never touches row 0 or column 0. -/
theorem alignMatrix_border (A : Aligner) (p q : Nat) (h : p = 0 ∨ q = 0) :
    alignMatrix A p q = init_matrix A p q :=
  fillAll_untouched A _ _ p q (by omega)

/-- `cell` reads its matrix only at the three neighbour coordinates. -/
theorem cell_congr (A : Aligner) (M N : Mat) (i j : Nat)
    (h1 : M (i - 1) (j - 1) = N (i - 1) (j - 1))
    (h2 : M i (j - 1) = N i (j - 1))
    (h3 : M (i - 1) j = N (i - 1) j) :
    cell A M i j = cell A N i j := by
  simp only [cell, cellCands, h1, h2, h3]

/-- The defining equation of `Mrec` at an interior cell, phrased through
`cell`. -/
theorem Mrec_interior (A : Aligner) (i j : Nat) (hi : 1 ≤ i) (hj : 1 ≤ j) :
    Mrec A i j = check_non_negativity A (cell A (Mrec A) i j) := by
  obtain ⟨i', rfl⟩ : ∃ i', i = i' + 1 := ⟨i - 1, by omega⟩
  obtain ⟨j', rfl⟩ : ∃ j', j = j' + 1 := ⟨j - 1, by omega⟩
  rw [Mrec]
  simp [cell, cellCands]

/-- Correctness of the inner loop: if the rows `0..k` already hold their
final values and row `k+1` still has its initial column-0 value, then after
`fillRow` the processed prefix of row `k+1` holds its final values as well. -/
theorem fillRow_eq (A : Aligner) (k : Nat) (Mk : Mat)
    (hrows : ∀ p q, p ≤ k → q ≤ A.seq2.length → Mk p q = Mrec A p q)
    (hcol : Mk (k + 1) 0 = init_matrix A (k + 1) 0) :
    ∀ jj, jj ≤ A.seq2.length → ∀ p q,
      (p ≤ k ∧ q ≤ A.seq2.length) ∨ (p = k + 1 ∧ q ≤ jj) →
      fillRow A (k + 1) Mk jj p q = Mrec A p q := by
  intro jj
  induction jj with
  | zero =>
    intro _ p q h
    show Mk p q = Mrec A p q
    rcases h with ⟨hp, hq⟩ | ⟨hp, hq⟩
    · exact hrows p q hp hq
    · have hq0 : q = 0 := by omega
      subst hq0; subst hp
      rw [hcol, Mrec]
  | succ jj ih =>
    intro hjj p q h
    show fillCell A (fillRow A (k + 1) Mk jj) (k + 1) (jj + 1) p q = Mrec A p q
    unfold fillCell
    by_cases hc : p = k + 1 ∧ q = jj + 1
    · rw [if_pos hc]
      obtain ⟨rfl, rfl⟩ := hc
      rw [cell_congr A (fillRow A (k + 1) Mk jj) (Mrec A) (k + 1) (jj + 1)
          (by simpa using ih (by omega) k jj (Or.inl ⟨le_refl k, by omega⟩))
          (by simpa using ih (by omega) (k + 1) jj (Or.inr ⟨rfl, le_refl jj⟩))
          (by simpa using ih (by omega) k (jj + 1) (Or.inl ⟨le_refl k, by omega⟩))]
      exact (Mrec_interior A (k + 1) (jj + 1) (by omega) (by omega)).symm
    · rw [if_neg hc]
      rcases h with h | h
      · exact ih (by omega) p q (Or.inl h)
      · exact ih (by omega) p q (Or.inr ⟨h.1, by omega⟩)

/-- Correctness of the whole row-major fill against the recurrence. -/
theorem fillAll_eq (A : Aligner) :
    ∀ ii, ii ≤ A.seq1.length → ∀ p q, p ≤ ii → q ≤ A.seq2.length →
      fillAll A (init_matrix A) ii p q = Mrec A p q := by
  intro ii
  induction ii with
  | zero =>
    intro _ p q hp _
    have hp0 : p = 0 := by omega
    subst hp0
    show init_matrix A 0 q = Mrec A 0 q
    rw [Mrec]
  | succ ii ih =>
    intro hii p q hp hq
    show fillRow A (ii + 1) (fillAll A (init_matrix A) ii) A.seq2.length p q = Mrec A p q
    refine fillRow_eq A ii _ ?_ ?_ A.seq2.length le_rfl p q (by omega)
    · intro p' q' hp' hq'
      exact ih (by omega) p' q' hp' hq'
    · exact fillAll_untouched A _ ii (ii + 1) 0 (by omega)

/-- The matrix `align()` leaves behind is the recurrence `Mrec` on the whole
matrix range. -/
theorem alignMatrix_eq (A : Aligner) (p q : Nat)
    (hp : p ≤ A.seq1.length) (hq : q ≤ A.seq2.length) :
    alignMatrix A p q = Mrec A p q :=
  fillAll_eq A A.seq1.length le_rfl p q hp hq

/-- Fixpoint form: every interior cell of the filled matrix equals the
(clamped) maximum of its three candidates, computed from the filled matrix
itself. -/
theorem alignMatrix_interior (A : Aligner) (i j : Nat)
    (hi : 1 ≤ i) (hi2 : i ≤ A.seq1.length) (hj : 1 ≤ j) (hj2 : j ≤ A.seq2.length) :
    alignMatrix A i j = check_non_negativity A (cell A (alignMatrix A) i j) := by
  rw [alignMatrix_eq A i j hi2 hj2, Mrec_interior A i j hi hj]
  refine congrArg _ (cell_congr A (Mrec A) (alignMatrix A) i j ?_ ?_ ?_) <;>
    rw [alignMatrix_eq] <;> omega

/-- Row 0 of the filled global matrix holds the accumulated border values of
`seq2`. -/
theorem alignMatrix_row0 (A : Aligner) (h : A.localMode = false) (k : Nat) :
    alignMatrix A 0 k = borderVal A A.seq2 k := by
  rw [alignMatrix_border A 0 k (Or.inl rfl)]
  simp [init_matrix, h]

/-- Column 0 of the filled global matrix holds the accumulated border values
of `seq1`. -/
theorem alignMatrix_col0 (A : Aligner) (h : A.localMode = false) (k : Nat) :
    alignMatrix A k 0 = borderVal A A.seq1 k := by
  rw [alignMatrix_border A k 0 (Or.inr rfl)]
  cases k with
  | zero => simp [init_matrix, h, borderVal, borderCounter]
  | succ k => simp [init_matrix, h]

/-- One border step adds the gap weight plus the substitution weight of the
newly prepended symbol. -/
theorem borderVal_succ (A : Aligner) (s : List Char) (k : Nat) :
    borderVal A s (k + 1) = borderVal A s k + (A.gap + A.weights '-' (s.getD k '-')) := by
  simp [borderVal, borderCounter, List.getD_cons_succ]
  ring

/-- C2 (amended).  In global mode the built matrix has
`M[0,0] = sub('-','-')` — which is 0 for the synthesized zero table and for
any loaded table whose gap/gap entry is 0, but not in general (see
`C2_counterexample`) — and every border cell satisfies the claimed
recurrences `M[0,k] = M[0,k-1] + score_gap(seq2[k-1])` and
`M[k,0] = M[k-1,0] + score_gap(seq1[k-1])`, for every pair of input sequences
and every scoring scheme. -/
theorem C2_border_recurrence (A : Aligner) (h : A.localMode = false) :
    alignMatrix A 0 0 = A.weights '-' '-' ∧
    (∀ k, 1 ≤ k → k ≤ A.seq2.length →
      alignMatrix A 0 k = alignMatrix A 0 (k - 1) + score_gap A (A.seq2.getD (k - 1) '-')) ∧
    (∀ k, 1 ≤ k → k ≤ A.seq1.length →
      alignMatrix A k 0 = alignMatrix A (k - 1) 0 + score_gap A (A.seq1.getD (k - 1) '-')) := by
  refine ⟨?_, ?_, ?_⟩
  · rw [alignMatrix_row0 A h 0]
    simp [borderVal, borderCounter]
  · intro k hk _
    obtain ⟨k', rfl⟩ : ∃ k', k = k' + 1 := ⟨k - 1, by omega⟩
    rw [alignMatrix_row0 A h, alignMatrix_row0 A h, borderVal_succ]
    simp [score_gap, add_assoc]
  · intro k hk _
    obtain ⟨k', rfl⟩ : ∃ k', k = k' + 1 := ⟨k - 1, by omega⟩
    rw [alignMatrix_col0 A h, alignMatrix_col0 A h, borderVal_succ]
    simp [score_gap, add_assoc]

/-- C2 witness: with `seq1="A"`, `seq2="C"` and the `gapATable` scheme, the
origin holds `sub('-','-')` and the first row/column step adds the
corresponding `score_gap`. -/
theorem C2_witness :
    alignMatrix alignerACgapA 0 0 = alignerACgapA.weights '-' '-' ∧
    alignMatrix alignerACgapA 0 1 =
      alignMatrix alignerACgapA 0 0 + score_gap alignerACgapA (alignerACgapA.seq2.getD 0 '-') ∧
    alignMatrix alignerACgapA 1 0 =
      alignMatrix alignerACgapA 1 0 + score_gap alignerACgapA (alignerACgapA.seq1.getD 0 '-') -
        score_gap alignerACgapA (alignerACgapA.seq1.getD 0 '-') := by
  obtain ⟨h1, h2, h3⟩ := C2_border_recurrence alignerACgapA rfl
  refine ⟨h1, ?_, by ring⟩
  simpa using h2 1 le_rfl (by norm_num [alignerACgapA])

/-- Rows already nonnegative stay nonnegative through the inner fill loop in
local mode, since every written value is clamped by `max 0`. -/
theorem fillRow_nonneg (A : Aligner) (h : A.localMode = true) (i : Nat) (M : Mat)
    (hM : ∀ p q, 0 ≤ M p q) : ∀ jj p q, 0 ≤ fillRow A i M jj p q := by
  intro jj
  induction jj with
  | zero => exact hM
  | succ jj ih =>
    intro p q
    show 0 ≤ fillCell A (fillRow A i M jj) i (jj + 1) p q
    unfold fillCell
    split
    · simp [check_non_negativity, h]
    · exact ih p q

/-- The whole fill preserves nonnegativity in local mode. -/
theorem fillAll_nonneg (A : Aligner) (h : A.localMode = true) (M : Mat)
    (hM : ∀ p q, 0 ≤ M p q) : ∀ ii p q, 0 ≤ fillAll A M ii p q := by
  intro ii
  induction ii with
  | zero => exact hM
  | succ ii ih => exact fillRow_nonneg A h (ii + 1) _ ih A.seq2.length

/-- C4.  In local mode, after build and fill every cell of the matrix is ≥ 0,
for every pair of input sequences and every scoring scheme: the initial matrix
is all zeros and every interior write is clamped to `max(0, ·)`. -/
theorem C4_local_nonneg (A : Aligner) (h : A.localMode = true) :
    ∀ i j, 0 ≤ alignMatrix A i j :=
  fillAll_nonneg A h (init_matrix A) (fun p q => by simp [init_matrix, h]) A.seq1.length

/-- C4 witness at a concrete local instance (the `alignerABA` matrix). -/
theorem C4_witness : 0 ≤ alignMatrix alignerABA 1 1 ∧ 0 ≤ alignMatrix alignerABA 2 1 :=
  ⟨C4_local_nonneg alignerABA rfl 1 1, C4_local_nonneg alignerABA rfl 2 1⟩

/-- Python's `s[i-1]` succeeds for `1 ≤ i ≤ len(s)` and returns the `i-1`-th
symbol. -/
theorem pyGet_pos (s : List Char) (i : Nat) (h1 : 1 ≤ i) (h2 : i ≤ s.length) :
    pyGet s ((i : Int) - 1) = some (s.getD (i - 1) '-') := by
  have hlt : i - 1 < s.length := by omega
  unfold pyGet
  rw [if_pos (by omega)]
  have ht : ((i : Int) - 1).toNat = i - 1 := by omega
  rw [ht, List.getD_eq_getElem?_getD, List.get?_eq_getElem?,
    List.getElem?_eq_getElem hlt]
  rfl

/-- Python's `s[-1]` succeeds on a nonempty string and returns its last
symbol. -/
theorem pyGet_neg_one (s : List Char) (hs : s ≠ []) :
    pyGet s ((0 : Int) - 1) = some (s.getD (s.length - 1) '-') := by
  have hlen : 0 < s.length := List.length_pos.mpr hs
  have hlt : s.length - 1 < s.length := by omega
  unfold pyGet
  rw [if_neg (by omega), if_pos (by omega)]
  have ht : ((s.length : Int) + ((0 : Int) - 1)).toNat = s.length - 1 := by omega
  rw [ht, List.getD_eq_getElem?_getD, List.get?_eq_getElem?,
    List.getElem?_eq_getElem hlt]
  rfl

/-- `seq1[i-1]` succeeds whenever `i` is a row index of a nonempty-`seq1`
matrix. -/
theorem pyGet_row_ok (s : List Char) (hs : s ≠ []) (i : Nat) (h : i ≤ s.length) :
    ∃ c, pyGet s ((i : Int) - 1) = some c := by
  cases Nat.eq_zero_or_pos i with
  | inl h0 =>
    subst h0
    exact ⟨_, pyGet_neg_one s hs⟩
  | inr hpos => exact ⟨_, pyGet_pos s i hpos h⟩

/-- Within the matrix range and with nonempty sequences, a traceback
iteration never raises. -/
theorem tracebackStep_no_raise (A : Aligner) (M : Mat) (cur : Nat × Nat) (value : ℚ)
    (h1 : cur.1 ≤ A.seq1.length) (h2 : cur.2 ≤ A.seq2.length)
    (hs1 : A.seq1 ≠ []) (hs2 : A.seq2 ≠ []) :
    tracebackStep A M cur value ≠ .raised := by
  intro hra
  unfold tracebackStep at hra
  by_cases hg : cur.1 = 0 ∧ cur.2 = 0
  · rw [if_pos hg] at hra
    exact StepOut.noConfusion hra
  · rw [if_neg hg] at hra
    obtain ⟨c1, hc1⟩ := pyGet_row_ok A.seq1 hs1 cur.1 h1
    obtain ⟨c2, hc2⟩ := pyGet_row_ok A.seq2 hs2 cur.2 h2
    rw [hc1, hc2] at hra
    dsimp only at hra
    split_ifs at hra

/-- Anatomy of a successful traceback iteration: the accepted move is one of
the three neighbours, its equality test holds, and the walk advances (the
coordinate sum strictly decreases). -/
theorem tracebackStep_move_spec (A : Aligner) (M : Mat) (cur : Nat × Nat) (value : ℚ)
    (p : Char × Char) (nxt : Nat × Nat)
    (h : tracebackStep A M cur value = .move p nxt) :
    ∃ s1 s2, pyGet A.seq1 ((cur.1 : Int) - 1) = some s1 ∧
      pyGet A.seq2 ((cur.2 : Int) - 1) = some s2 ∧
      ((nxt = (cur.1 - 1, cur.2 - 1) ∧ 1 ≤ cur.1 ∧ 1 ≤ cur.2 ∧
          (value - M (cur.1 - 1) (cur.2 - 1) = A.matchW + A.weights s1 s2 ∨
            value - M (cur.1 - 1) (cur.2 - 1) = A.mismatch + A.weights s1 s2)) ∨
        (nxt = (cur.1, cur.2 - 1) ∧ 1 ≤ cur.2 ∧
          value - M cur.1 (cur.2 - 1) = A.gap + A.weights '-' s2) ∨
        (nxt = (cur.1 - 1, cur.2) ∧ 1 ≤ cur.1 ∧
          value - M (cur.1 - 1) cur.2 = A.gap + A.weights s1 '-')) := by
  unfold tracebackStep at h
  by_cases hg : cur.1 = 0 ∧ cur.2 = 0
  · rw [if_pos hg] at h
    exact absurd h (by simp)
  · rw [if_neg hg] at h
    rcases e1 : pyGet A.seq1 ((cur.1 : Int) - 1) with _ | s1 <;>
      rcases e2 : pyGet A.seq2 ((cur.2 : Int) - 1) with _ | s2 <;>
      rw [e1, e2] at h <;> dsimp only at h
    · exact absurd h (by simp)
    · exact absurd h (by simp)
    · exact absurd h (by simp)
    refine ⟨s1, s2, rfl, rfl, ?_⟩
    split_ifs at h with hd hl hu
    · obtain ⟨-, hnxt⟩ := StepOut.move.inj h
      exact Or.inl ⟨hnxt.symm, hd.1.1, hd.1.2, by
        rcases hd.2 with ⟨he, -⟩ | he
        · exact Or.inl he
        · exact Or.inr he⟩
    · obtain ⟨-, hnxt⟩ := StepOut.move.inj h
      exact Or.inr (Or.inl ⟨hnxt.symm, hl.1, hl.2⟩)
    · obtain ⟨-, hnxt⟩ := StepOut.move.inj h
      exact Or.inr (Or.inr ⟨hnxt.symm, hu.1, hu.2⟩)

/-- A successful traceback iteration strictly decreases the coordinate sum and
never increases either coordinate. -/
theorem tracebackStep_move_bounds (A : Aligner) (M : Mat) (cur : Nat × Nat) (value : ℚ)
    (p : Char × Char) (nxt : Nat × Nat)
    (h : tracebackStep A M cur value = .move p nxt) :
    nxt.1 ≤ cur.1 ∧ nxt.2 ≤ cur.2 ∧ nxt.1 + nxt.2 < cur.1 + cur.2 := by
  obtain ⟨s1, s2, -, -, hc⟩ := tracebackStep_move_spec A M cur value p nxt h
  rcases hc with ⟨rfl, h1, h2, -⟩ | ⟨rfl, h2, -⟩ | ⟨rfl, h1, -⟩ <;>
    refine ⟨by omega, by omega, by omega⟩

/-- A local walk whose previous value is 0 stops at once, with the
accumulator unchanged and only the entry cell visited. -/
theorem localLoop_zeroPrev (A : Aligner) (M : Mat) (fuel : Nat) (cur : Nat × Nat)
    (acc : List (Char × Char)) : localLoop A M fuel 0 cur acc = (.done acc, [cur]) := by
  cases fuel <;> simp [localLoop]

/-- Unfolding of one local-walk iteration with a nonzero previous value. -/
theorem localLoop_succ (A : Aligner) (M : Mat) (fuel : Nat) (v : ℚ) (cur : Nat × Nat)
    (acc : List (Char × Char)) (hv : v ≠ 0) :
    localLoop A M (fuel + 1) v cur acc =
      match tracebackStep A M cur (M cur.1 cur.2) with
      | .raised => (.raised, [cur])
      | .stuck => localLoop A M fuel (M cur.1 cur.2) cur acc
      | .move p nxt =>
        ((localLoop A M fuel (M cur.1 cur.2) nxt (p :: acc)).1,
          cur :: (localLoop A M fuel (M cur.1 cur.2) nxt (p :: acc)).2) := by
  simp only [localLoop, if_neg hv]

/-- In local mode every border cell of the filled matrix is exactly 0: the
initial matrix is all zeros and the fill writes only interior cells. -/
theorem localBorder_zero (A : Aligner) (h : A.localMode = true) :
    ∀ i j, i = 0 ∨ j = 0 → alignMatrix A i j = 0 := by
  intro i j hij
  rw [alignMatrix_border A i j hij]
  simp [init_matrix, h]

/-- C10 (amended).  In local mode the fill pass writes only interior cells
(`i, j ≥ 1`), so every cell of row 0 and column 0 remains exactly 0 after
`align()`.  A local traceback walk that reaches a border cell terminates after
at most one further loop iteration from that cell — because the loop guard
tests the previously recorded value, one more body can run from the border
cell and emit at most one extra pair (see `C10_counterexample`, where it does)
— so the walk visits at most one cell beyond the border cell and then halts. -/
theorem C10_border_halt (A : Aligner) (h : A.localMode = true) :
    (∀ i j, i = 0 ∨ j = 0 → alignMatrix A i j = 0) ∧
    (∀ fuel v cur acc, cur.1 ≤ A.seq1.length → cur.2 ≤ A.seq2.length →
      A.seq1 ≠ [] → A.seq2 ≠ [] → cur.1 = 0 ∨ cur.2 = 0 →
      (localLoop A (alignMatrix A) (fuel + 1) v cur acc).1.isDone ∧
      (localLoop A (alignMatrix A) (fuel + 1) v cur acc).2.length ≤ 2 ∧
      (localLoop A (alignMatrix A) (fuel + 1) v cur acc).1.accLen ≤ acc.length + 1) := by
  refine ⟨localBorder_zero A h, ?_⟩
  intro fuel v cur acc h1 h2 hs1 hs2 hb
  by_cases hv : v = 0
  · subst hv
    rw [localLoop_zeroPrev]
    exact ⟨trivial, by simp, by simp [WalkOut.accLen]⟩
  · have hz : alignMatrix A cur.1 cur.2 = 0 := localBorder_zero A h cur.1 cur.2 hb
    rw [localLoop_succ A (alignMatrix A) fuel v cur acc hv]
    rcases hstep : tracebackStep A (alignMatrix A) cur (alignMatrix A cur.1 cur.2)
      with _ | _ | ⟨p, nxt⟩
    · exact absurd hstep (tracebackStep_no_raise A (alignMatrix A) cur _ h1 h2 hs1 hs2)
    · dsimp only
      rw [hz, localLoop_zeroPrev]
      simp [WalkOut.isDone, WalkOut.accLen]
    · dsimp only
      rw [hz, localLoop_zeroPrev]
      simp [WalkOut.isDone, WalkOut.accLen]

/-- C10 witness: the border cell (0,1) of the `alignerABAloc` walk, entered
with previous value 1: the walk finishes, visits at most one further cell and
emits at most one extra pair. -/
theorem C10_witness :
    (localLoop alignerABAloc (alignMatrix alignerABAloc) 3 1 (0, 1) []).1.isDone ∧
    (localLoop alignerABAloc (alignMatrix alignerABAloc) 3 1 (0, 1) []).2.length ≤ 2 ∧
    (localLoop alignerABAloc (alignMatrix alignerABAloc) 3 1 (0, 1) []).1.accLen ≤ 1 :=
  (C10_border_halt alignerABAloc rfl).2 2 1 (0, 1) []
    (by decide) (by decide) (by decide) (by decide) (Or.inl rfl)

/-- C3 (amended).  At every traceback step the three neighbours are evaluated
in the fixed priority order diagonal, then left, then up, and the first whose
equality test holds is taken — so on ties diagonal wins over left and left
over up — but the diagonal's accepted test is not the single equality
`V - M[diag] = score_pair`: it is the disjunction
`(V - M[diag] = match + sub ∧ seq1[i-1] = seq2[j-1]) ∨ V - M[diag] = mismatch + sub`,
which also fires on the mismatch equality when the symbols agree
(see `C3_counterexample`).  The code's step coincides with the first-match
rule over this amended score table on every state. -/
theorem C3_step_refinement (A : Aligner) (M : Mat) (cur : Nat × Nat) (value : ℚ) :
    tracebackStep A M cur value = amendedStep A M cur value := by
  unfold tracebackStep amendedStep
  by_cases hg : cur.1 = 0 ∧ cur.2 = 0
  · rw [if_pos hg, if_pos hg]
  · rw [if_neg hg, if_neg hg]
    rcases pyGet A.seq1 ((cur.1 : Int) - 1) with _ | s1 <;>
      rcases pyGet A.seq2 ((cur.2 : Int) - 1) with _ | s2 <;> dsimp only
    by_cases h2 : s1 = s2
    · subst h2
      by_cases hi : 1 ≤ cur.1 <;> by_cases hj : 1 ≤ cur.2 <;>
        by_cases h1 : value - M (cur.1 - 1) (cur.2 - 1) = A.matchW + A.weights s1 s1 <;>
        by_cases h3 : value - M (cur.1 - 1) (cur.2 - 1) = A.mismatch + A.weights s1 s1 <;>
        by_cases h4 : value - M cur.1 (cur.2 - 1) = A.gap + A.weights '-' s1 <;>
        by_cases h5 : value - M (cur.1 - 1) cur.2 = A.gap + A.weights s1 '-' <;>
        first
          | omega
          | (simp [List.find?, hi, hj, h1, h3, h4, h5]
             done)
          | (have h6 : A.matchW = A.mismatch := by linarith
             simp [List.find?, hi, hj, h1, h3, h4, h5, h6]
             done)
          | (have h6 : ¬ A.matchW = A.mismatch := by
               intro hc
               first
                 | exact h3 (by linarith)
                 | exact h1 (by linarith)
             have h7 : ¬ A.mismatch = A.matchW := fun hc => h6 hc.symm
             simp [List.find?, hi, hj, h1, h3, h4, h5, h6, h7])
    · by_cases hi : 1 ≤ cur.1 <;> by_cases hj : 1 ≤ cur.2 <;>
        by_cases h1 : value - M (cur.1 - 1) (cur.2 - 1) = A.matchW + A.weights s1 s2 <;>
        by_cases h3 : value - M (cur.1 - 1) (cur.2 - 1) = A.mismatch + A.weights s1 s2 <;>
        by_cases h4 : value - M cur.1 (cur.2 - 1) = A.gap + A.weights '-' s2 <;>
        by_cases h5 : value - M (cur.1 - 1) cur.2 = A.gap + A.weights s1 '-' <;>
        first
          | omega
          | (simp [List.find?, hi, hj, h1, h2, h3, h4, h5]
             done)
          | (have h6 : A.matchW = A.mismatch := by linarith
             simp [List.find?, hi, hj, h1, h2, h3, h4, h5, h6]
             done)
          | (have h6 : ¬ A.matchW = A.mismatch := by
               intro hc
               first
                 | exact h3 (by linarith)
                 | exact h1 (by linarith)
             have h7 : ¬ A.mismatch = A.matchW := fun hc => h6 hc.symm
             simp [List.find?, hi, hj, h1, h2, h3, h4, h5, h6, h7])

/-- C9.  Requesting a substitution-table name other than `'pam'` and
`'blosum'` (case-insensitive) aborts `__init__` before any matrix
construction: `set_weights` runs first and fails (in the source, `filename`
is never assigned and `pd.read_csv(filename)` raises), so construction
yields an error and no matrix. -/
theorem C9_unknown_table_rejected (seq1 seq2 : List Char)
    (matchW mismatch gap : ℚ) (interp : WSpec → Char → Char → ℚ)
    (localMode : Bool) (s : List Char) (h0 : s ≠ [])
    (h1 : lowerStr s ≠ ['p', 'a', 'm'])
    (h2 : lowerStr s ≠ ['b', 'l', 'o', 's', 'u', 'm']) :
    alignerInit seq1 seq2 matchW mismatch gap (some s) interp localMode = .error s := by
  simp only [alignerInit, set_weights]
  rw [if_neg h0, if_neg h1, if_neg h2]

/-- C9 witness: constructing an aligner with the table name `"xy"` fails with
a configuration error. -/
theorem C9_witness :
    alignerInit ['A'] ['C'] 1 (-1) (-1) (some ['x', 'y'])
      (fun _ _ _ => 0) false = .error ['x', 'y'] :=
  C9_unknown_table_rejected ['A'] ['C'] 1 (-1) (-1) (fun _ _ _ => 0) false
    ['x', 'y'] (by decide) (by decide) (by decide)

/-- Coordinates of `allCoords` are exactly the matrix range. -/
theorem mem_allCoords (A : Aligner) (c : Nat × Nat) :
    c ∈ allCoords A ↔ c.1 ≤ A.seq1.length ∧ c.2 ≤ A.seq2.length := by
  obtain ⟨i, j⟩ := c
  simp only [allCoords, List.mem_flatMap, List.mem_map, List.mem_range]
  constructor
  · rintro ⟨a, ha, b, hb, heq⟩
    injection heq with e1 e2
    subst e1
    subst e2
    exact ⟨by omega, by omega⟩
  · rintro ⟨h1, h2⟩
    exact ⟨i, by omega, j, by omega, rfl⟩

/-- The row-major coordinate list has no duplicates. -/
theorem allCoords_nodup (A : Aligner) : (allCoords A).Nodup := by
  unfold allCoords
  rw [List.nodup_flatMap]
  constructor
  · intro i _
    exact (List.nodup_range _).map (fun a b h => (Prod.mk.injEq _ _ _ _ ▸ h).2)
  · refine (List.nodup_range _).pairwise_of_forall_ne ?_
    intro i _ j _ hij
    simp only [List.Disjoint, List.mem_map]
    rintro c ⟨a, -, rfl⟩ ⟨b, -, hab⟩
    exact hij ((Prod.mk.injEq _ _ _ _ ▸ hab).1.symm)

/-- The seed of a running `foldl max` never exceeds the result. -/
theorem le_foldl_max (l : List (Nat × Nat)) (f : Nat × Nat → ℚ) :
    ∀ a : ℚ, a ≤ l.foldl (fun acc c => max acc (f c)) a := by
  induction l with
  | nil => intro a; exact le_rfl
  | cons hd tl ih => intro a; exact le_trans (le_max_left a (f hd)) (ih _)

/-- Every listed cell is bounded by the running `foldl max`. -/
theorem mem_le_foldl_max (l : List (Nat × Nat)) (f : Nat × Nat → ℚ) (c : Nat × Nat)
    (hc : c ∈ l) : ∀ a : ℚ, f c ≤ l.foldl (fun acc q => max acc (f q)) a := by
  induction l with
  | nil => cases hc
  | cons hd tl ih =>
    intro a
    rcases List.mem_cons.mp hc with rfl | hmem
    · exact le_trans (le_max_right a (f c)) (le_foldl_max tl f _)
    · exact ih hmem _

/-- A running `foldl max` returns its seed or one of the listed values. -/
theorem foldl_max_cases (l : List (Nat × Nat)) (f : Nat × Nat → ℚ) :
    ∀ a : ℚ, l.foldl (fun acc c => max acc (f c)) a = a ∨
      ∃ c ∈ l, l.foldl (fun acc c => max acc (f c)) a = f c := by
  induction l with
  | nil => intro a; exact Or.inl rfl
  | cons hd tl ih =>
    intro a
    rcases ih (max a (f hd)) with h | ⟨c, hc, h⟩
    · rcases max_cases a (f hd) with ⟨he, -⟩ | ⟨he, -⟩
      · exact Or.inl (by rw [List.foldl_cons, h, he])
      · exact Or.inr ⟨hd, List.mem_cons_self _ _, by rw [List.foldl_cons, h, he]⟩
    · exact Or.inr ⟨c, List.mem_cons_of_mem _ hc, h⟩

/-- The matrix maximum is attained at some coordinate of the matrix range. -/
theorem matrixMax_attained (A : Aligner) :
    ∃ c ∈ allCoords A, matrixMax A = alignMatrix A c.1 c.2 := by
  rcases foldl_max_cases (allCoords A) (fun c => alignMatrix A c.1 c.2)
      (alignMatrix A 0 0) with h | ⟨c, hc, h⟩
  · exact ⟨(0, 0), (mem_allCoords A (0, 0)).mpr ⟨Nat.zero_le _, Nat.zero_le _⟩, h⟩
  · exact ⟨c, hc, h⟩

/-- C5.  In local mode the result mapping has exactly one entry per coordinate
whose cell value equals the matrix's global maximum (the key list is exactly
the duplicate-free row-major list of maximising coordinates, and the maximum
bounds every cell); in the degenerate case where the maximum is 0 the start
set contains every zero cell of the matrix and every traceback path is
empty. -/
theorem C5_local_result (A : Aligner) (fuel : Nat) :
    (select_local_alignment A fuel).map Prod.fst = argmaxCoords A ∧
    (argmaxCoords A).Nodup ∧
    (∀ c, c ∈ argmaxCoords A ↔
      c.1 ≤ A.seq1.length ∧ c.2 ≤ A.seq2.length ∧ alignMatrix A c.1 c.2 = matrixMax A) ∧
    (∀ c ∈ allCoords A, alignMatrix A c.1 c.2 ≤ matrixMax A) ∧
    (matrixMax A = 0 → ∀ c, c.1 ≤ A.seq1.length → c.2 ≤ A.seq2.length →
      alignMatrix A c.1 c.2 = 0 → c ∈ argmaxCoords A) ∧
    (matrixMax A = 0 → ∀ e ∈ select_local_alignment A fuel, e.2 = .done []) := by
  have hiff : ∀ c : Nat × Nat, c ∈ argmaxCoords A ↔
      c.1 ≤ A.seq1.length ∧ c.2 ≤ A.seq2.length ∧ alignMatrix A c.1 c.2 = matrixMax A := by
    intro c
    rw [argmaxCoords, List.mem_filter, mem_allCoords]
    simp [and_assoc]
  refine ⟨?_, (allCoords_nodup A).filter _, hiff, ?_, ?_, ?_⟩
  · rw [select_local_alignment, List.map_map]
    rw [show (Prod.fst ∘ fun c : Nat × Nat =>
        (c, (localLoop A (alignMatrix A) fuel (alignMatrix A c.1 c.2) c []).1)) = id from rfl]
    exact List.map_id _
  · intro c hc
    exact mem_le_foldl_max (allCoords A) _ c hc _
  · intro h0 c h1 h2 hz
    exact (hiff c).mpr ⟨h1, h2, by rw [hz, h0]⟩
  · intro h0 e he
    simp only [select_local_alignment, List.mem_map] at he
    obtain ⟨c, hc, rfl⟩ := he
    have hz : alignMatrix A c.1 c.2 = 0 := by
      have h := ((hiff c).mp hc).2.2
      rw [h, h0]
    simp only [hz, localLoop_zeroPrev]

/-- Local aligner for `seq1="A"`, `seq2="A"` with `match=-1` (a degenerate
scheme: no positive local score anywhere, so the matrix is all zeros). -/
def alignerAAdeg : Aligner :=
  ⟨['A'], ['A'], -1, -1, -1, zeroTable, true⟩

/-- C5 witness: the key list of the degenerate run is the full argmax list,
and the walk from the maximising coordinate (1,1) is empty. -/
theorem C5_witness :
    (select_local_alignment alignerAAdeg 5).map Prod.fst = argmaxCoords alignerAAdeg ∧
    (localLoop alignerAAdeg (alignMatrix alignerAAdeg) 5
      (alignMatrix alignerAAdeg 1 1) (1, 1) []).1 = .done [] := by
  have hmax : matrixMax alignerAAdeg = 0 := by
    norm_num +decide [matrixMax, allCoords, alignMatrix, fillAll, fillRow, fillCell, cell,
      cellCands, init_matrix, check_non_negativity, alignerAAdeg, zeroTable]
  have h11 : (1, 1) ∈ argmaxCoords alignerAAdeg := by
    norm_num +decide [argmaxCoords, allCoords, matrixMax, alignMatrix, fillAll, fillRow,
      fillCell, cell, cellCands, init_matrix, check_non_negativity, alignerAAdeg, zeroTable]
  refine ⟨(C5_local_result alignerAAdeg 5).1, ?_⟩
  exact (C5_local_result alignerAAdeg 5).2.2.2.2.2 hmax
    ((1, 1), (localLoop alignerAAdeg (alignMatrix alignerAAdeg) 5
      (alignMatrix alignerAAdeg 1 1) (1, 1) []).1)
    (List.mem_map.mpr ⟨(1, 1), h11, rfl⟩)

/-- When every move score is positive, an accepted traceback move lands on a
cell whose stored value is strictly below the current `value`. -/
theorem tracebackStep_move_drop (A : Aligner) (M : Mat) (cur : Nat × Nat) (value : ℚ)
    (p : Char × Char) (nxt : Nat × Nat)
    (hm : ∀ a b, 0 < A.matchW + A.weights a b)
    (hmm : ∀ a b, 0 < A.mismatch + A.weights a b)
    (hg1 : ∀ a, 0 < A.gap + A.weights '-' a)
    (hg2 : ∀ a, 0 < A.gap + A.weights a '-')
    (h : tracebackStep A M cur value = .move p nxt) :
    M nxt.1 nxt.2 < value := by
  obtain ⟨s1, s2, -, -, hc⟩ := tracebackStep_move_spec A M cur value p nxt h
  rcases hc with ⟨rfl, -, -, he | he⟩ | ⟨rfl, -, he⟩ | ⟨rfl, -, he⟩
  · have hp := hm s1 s2
    dsimp only
    linarith
  · have hp := hmm s1 s2
    dsimp only
    linarith
  · have hp := hg1 s2
    dsimp only
    linarith
  · have hp := hg2 s1
    dsimp only
    linarith

/-- The visited list of a local walk starts with the entry cell. -/
theorem localLoop_visited_head (A : Aligner) (M : Mat) :
    ∀ fuel v cur acc, ∃ t, (localLoop A M fuel v cur acc).2 = cur :: t := by
  intro fuel
  induction fuel with
  | zero =>
    intro v cur acc
    by_cases hv : v = 0 <;> simp [localLoop, hv]
  | succ fuel ih =>
    intro v cur acc
    by_cases hv : v = 0
    · simp [localLoop, hv]
    · rw [localLoop_succ A M fuel v cur acc hv]
      rcases hs : tracebackStep A M cur (M cur.1 cur.2) with _ | _ | ⟨p, nxt⟩ <;> dsimp only
      · exact ⟨[], rfl⟩
      · exact ih _ cur acc
      · exact ⟨_, rfl⟩

/-- C7 (amended).  Along every local traceback walk, the matrix values at the
visited cells, truncated at the first zero value (the terminating zero cell),
form a strictly decreasing sequence PROVIDED every move score — `match + sub`,
`mismatch + sub` and `gap + sub` over the relevant symbol pairs — is positive.
Without that proviso an accepted move of score 0 (for example `gap = 0` with
the zero table) repeats the current value, and a negative accepted score
increases it, so the claimed unconditional strict decrease fails
(see `C7_counterexample`). -/
theorem C7_strict_decrease (A : Aligner)
    (hm : ∀ a b, 0 < A.matchW + A.weights a b)
    (hmm : ∀ a b, 0 < A.mismatch + A.weights a b)
    (hg1 : ∀ a, 0 < A.gap + A.weights '-' a)
    (hg2 : ∀ a, 0 < A.gap + A.weights a '-') :
    ∀ fuel v cur acc,
      List.Chain' (· > ·)
        (pathValues A (localLoop A (alignMatrix A) fuel v cur acc).2) := by
  intro fuel
  induction fuel with
  | zero =>
    intro v cur acc
    by_cases hv : v = 0 <;>
      simp only [localLoop, hv, if_pos, if_neg, ite_true, ite_false, pathValues,
        List.map_cons, List.map_nil, List.takeWhile] <;>
      split <;> simp
  | succ fuel ih =>
    intro v cur acc
    by_cases hv : v = 0
    · simp only [localLoop, hv, ite_true, pathValues, List.map_cons, List.map_nil,
        List.takeWhile]
      split <;> simp
    · rw [localLoop_succ A (alignMatrix A) fuel v cur acc hv]
      rcases hs : tracebackStep A (alignMatrix A) cur (alignMatrix A cur.1 cur.2)
        with _ | _ | ⟨p, nxt⟩ <;> dsimp only
      · simp only [pathValues, List.map_cons, List.map_nil, List.takeWhile]
        split <;> simp
      · exact ih _ cur acc
      · obtain ⟨t, ht⟩ := localLoop_visited_head A (alignMatrix A) fuel
          (alignMatrix A cur.1 cur.2) nxt (p :: acc)
        have hch := ih (alignMatrix A cur.1 cur.2) nxt (p :: acc)
        rw [ht] at hch ⊢
        by_cases hz : alignMatrix A cur.1 cur.2 = 0
        · simp [pathValues, hz]
        · have hdrop : alignMatrix A nxt.1 nxt.2 < alignMatrix A cur.1 cur.2 :=
            tracebackStep_move_drop A (alignMatrix A) cur _ p nxt hm hmm hg1 hg2 hs
          simp only [pathValues, List.map_cons, List.takeWhile_cons] at hch ⊢
          rw [if_pos (by simp [hz])]
          by_cases hz2 : alignMatrix A nxt.1 nxt.2 = 0
          · rw [if_neg (by simp [hz2])]
            simp
          · rw [if_pos (by simp [hz2])] at hch ⊢
            exact List.chain'_cons.mpr ⟨hdrop, hch⟩

/-- Local aligner with strictly positive move scores everywhere:
`match=2`, `mismatch=1`, `gap=1`, zero table. -/
def alignerPos : Aligner :=
  ⟨['A'], ['A'], 2, 1, 1, zeroTable, true⟩

/-- C7 witness: under the all-positive scheme `alignerPos`, the walk from the
maximum (1,1) has strictly decreasing visited values. -/
theorem C7_witness :
    List.Chain' (· > ·)
      (pathValues alignerPos (localLoop alignerPos (alignMatrix alignerPos) 5
        (alignMatrix alignerPos 1 1) (1, 1) []).2) :=
  C7_strict_decrease alignerPos
    (fun a b => by norm_num [alignerPos, zeroTable])
    (fun a b => by norm_num [alignerPos, zeroTable])
    (fun a => by norm_num [alignerPos, zeroTable])
    (fun a => by norm_num [alignerPos, zeroTable]) 5 _ (1, 1) []

/-- With the zero table, every border value is a pure multiple of the gap
weight. -/
theorem borderVal_zeroTable (A : Aligner) (hw : A.weights = zeroTable)
    (s : List Char) : ∀ k, borderVal A s k = k * A.gap := by
  intro k
  induction k with
  | zero => simp [borderVal, borderCounter, hw, zeroTable]
  | succ k ih =>
    rw [borderVal_succ, ih, hw]
    simp [zeroTable]
    push_cast
    ring

/-- With the zero table, an interior traceback iteration whose `value` is the
cell maximum always finds a move: whichever candidate attained the maximum,
its equality test holds, so the first firing test yields a move. -/
theorem step_succeeds (A : Aligner) (M : Mat) (i j : Nat)
    (hw : A.weights = zeroTable) (hi : 1 ≤ i) (hj : 1 ≤ j)
    (hi2 : i ≤ A.seq1.length) (hj2 : j ≤ A.seq2.length)
    (value : ℚ) (hv : value = cell A M i j) :
    ∃ p nxt, tracebackStep A M (i, j) value = .move p nxt := by
  have hzero : ∀ a b, A.weights a b = 0 := by
    intro a b
    rw [hw]
    rfl
  have hpy1 : pyGet A.seq1 ((i : Int) - 1) = some (A.seq1.getD (i - 1) '-') :=
    pyGet_pos A.seq1 i hi hi2
  have hpy2 : pyGet A.seq2 ((j : Int) - 1) = some (A.seq2.getD (j - 1) '-') :=
    pyGet_pos A.seq2 j hj hj2
  have hv' : value =
      max (M (i - 1) (j - 1) +
          (if A.seq1.getD (i - 1) '-' = A.seq2.getD (j - 1) '-' then A.matchW else A.mismatch))
        (max (M i (j - 1) + A.gap) (M (i - 1) j + A.gap)) := by
    rw [hv]
    simp only [cell, cellCands, hzero, add_zero]
  unfold tracebackStep
  dsimp only
  rw [if_neg (by omega), hpy1, hpy2]
  dsimp only
  by_cases h1 : (1 ≤ i ∧ 1 ≤ j) ∧
      ((value - M (i - 1) (j - 1) =
          A.matchW + A.weights (A.seq1.getD (i - 1) '-') (A.seq2.getD (j - 1) '-') ∧
        A.seq1.getD (i - 1) '-' = A.seq2.getD (j - 1) '-') ∨
        value - M (i - 1) (j - 1) =
          A.mismatch + A.weights (A.seq1.getD (i - 1) '-') (A.seq2.getD (j - 1) '-'))
  · exact ⟨_, _, by rw [if_pos h1]⟩
  by_cases h2 : 1 ≤ j ∧ value - M i (j - 1) = A.gap + A.weights '-' (A.seq2.getD (j - 1) '-')
  · exact ⟨_, _, by rw [if_neg h1, if_pos h2]⟩
  by_cases h3 : 1 ≤ i ∧ value - M (i - 1) j = A.gap + A.weights (A.seq1.getD (i - 1) '-') '-'
  · exact ⟨_, _, by rw [if_neg h1, if_neg h2, if_pos h3]⟩
  exfalso
  simp only [hzero, add_zero] at h1 h2 h3
  rcases max_cases (M (i - 1) (j - 1) +
      (if A.seq1.getD (i - 1) '-' = A.seq2.getD (j - 1) '-' then A.matchW else A.mismatch))
      (max (M i (j - 1) + A.gap) (M (i - 1) j + A.gap)) with ⟨he, -⟩ | ⟨he, -⟩
  · rw [he] at hv'
    apply h1
    refine ⟨⟨hi, hj⟩, ?_⟩
    by_cases heq : A.seq1.getD (i - 1) '-' = A.seq2.getD (j - 1) '-'
    · rw [if_pos heq] at hv'
      exact Or.inl ⟨by linarith, heq⟩
    · rw [if_neg heq] at hv'
      exact Or.inr (by linarith)
  · rw [he] at hv'
    rcases max_cases (M i (j - 1) + A.gap) (M (i - 1) j + A.gap) with ⟨he2, -⟩ | ⟨he2, -⟩
    · rw [he2] at hv'
      exact h2 ⟨hj, by linarith⟩
    · rw [he2] at hv'
      exact h3 ⟨hi, by linarith⟩

/-- With the zero table in global mode, the traceback iteration at a cell of
column 0 always moves up. -/
theorem step_border_up (A : Aligner) (hw : A.weights = zeroTable)
    (hloc : A.localMode = false) (hs2 : A.seq2 ≠ []) (i : Nat)
    (hi : 1 ≤ i) (hi2 : i ≤ A.seq1.length) :
    tracebackStep A (alignMatrix A) (i, 0) (alignMatrix A i 0) =
      .move (A.seq1.getD (i - 1) '-', '-') (i - 1, 0) := by
  have hzero : ∀ a b, A.weights a b = 0 := by
    intro a b
    rw [hw]
    rfl
  have hcol : ∀ k, alignMatrix A k 0 = k * A.gap := by
    intro k
    rw [alignMatrix_col0 A hloc k, borderVal_zeroTable A hw A.seq1 k]
  have hc : ((i - 1 : Nat) : ℚ) = (i : ℚ) - 1 := by
    push_cast [hi]
    ring
  unfold tracebackStep
  dsimp only
  rw [if_neg (by omega)]
  simp only [Nat.cast_zero]
  rw [pyGet_pos A.seq1 i hi hi2, pyGet_neg_one A.seq2 hs2]
  dsimp only
  rw [if_neg (fun h => absurd h.1.2 (by omega)),
    if_neg (fun h => absurd h.1 (by omega)),
    if_pos ⟨hi, by rw [hcol, hcol, hzero, hc]; ring⟩]

/-- With the zero table in global mode, the traceback iteration at a cell of
row 0 always moves left. -/
theorem step_border_left (A : Aligner) (hw : A.weights = zeroTable)
    (hloc : A.localMode = false) (hs1 : A.seq1 ≠ []) (j : Nat)
    (hj : 1 ≤ j) (hj2 : j ≤ A.seq2.length) :
    tracebackStep A (alignMatrix A) (0, j) (alignMatrix A 0 j) =
      .move ('-', A.seq2.getD (j - 1) '-') (0, j - 1) := by
  have hzero : ∀ a b, A.weights a b = 0 := by
    intro a b
    rw [hw]
    rfl
  have hrow : ∀ k, alignMatrix A 0 k = k * A.gap := by
    intro k
    rw [alignMatrix_row0 A hloc k, borderVal_zeroTable A hw A.seq2 k]
  have hc : ((j - 1 : Nat) : ℚ) = (j : ℚ) - 1 := by
    push_cast [hj]
    ring
  unfold tracebackStep
  dsimp only
  rw [if_neg (by omega)]
  simp only [Nat.cast_zero]
  rw [pyGet_neg_one A.seq1 hs1, pyGet_pos A.seq2 j hj hj2]
  dsimp only
  rw [if_neg (fun h => absurd h.1.1 (by omega)),
    if_pos ⟨hj, by rw [hrow, hrow, hzero, hc]; ring⟩]

/-- Unfolding of one global-walk iteration away from the origin. -/
theorem globalLoop_succ (A : Aligner) (M : Mat) (fuel : Nat) (cur : Nat × Nat)
    (acc : List (Char × Char)) (h : cur ≠ (0, 0)) :
    globalLoop A M (fuel + 1) cur acc =
      match tracebackStep A M cur (M cur.1 cur.2) with
      | .raised => .raised
      | .stuck => globalLoop A M fuel cur acc
      | .move p nxt => globalLoop A M fuel nxt (p :: acc) := by
  obtain ⟨ci, cj⟩ := cur
  cases ci with
  | zero =>
    cases cj with
    | zero => exact absurd rfl h
    | succ cj => rfl
  | succ ci => rfl

/-- With the zero table and nonempty sequences, the global traceback walk
reaches (0,0): from any in-range coordinate with sum at most `s`, fuel `s + 1`
finishes the walk. -/
theorem globalLoop_done (A : Aligner) (hw : A.weights = zeroTable)
    (hloc : A.localMode = false) (hs1 : A.seq1 ≠ []) (hs2 : A.seq2 ≠ []) :
    ∀ s i j acc, i ≤ A.seq1.length → j ≤ A.seq2.length → i + j ≤ s →
      ∃ acc2, globalLoop A (alignMatrix A) (s + 1) (i, j) acc = .done acc2 := by
  intro s
  induction s with
  | zero =>
    intro i j acc h1 h2 h3
    have hi : i = 0 := by omega
    have hj : j = 0 := by omega
    subst hi
    subst hj
    exact ⟨acc, rfl⟩
  | succ s ih =>
    intro i j acc h1 h2 h3
    by_cases hz : i = 0 ∧ j = 0
    · obtain ⟨rfl, rfl⟩ := hz
      exact ⟨acc, rfl⟩
    · have hne : ((i, j) : Nat × Nat) ≠ (0, 0) := by
        intro hc
        injection hc with e1 e2
        exact hz ⟨e1, e2⟩
      rw [globalLoop_succ A (alignMatrix A) (s + 1) (i, j) acc hne]
      by_cases hij : 1 ≤ i ∧ 1 ≤ j
      · have hcell : alignMatrix A i j = cell A (alignMatrix A) i j := by
          rw [alignMatrix_interior A i j hij.1 h1 hij.2 h2]
          simp [check_non_negativity, hloc]
        obtain ⟨p, nxt, hstep⟩ :=
          step_succeeds A (alignMatrix A) i j hw hij.1 hij.2 h1 h2 _ hcell
        obtain ⟨hb1, hb2, hb3⟩ :=
          tracebackStep_move_bounds A (alignMatrix A) (i, j) _ p nxt hstep
        rw [hstep]
        obtain ⟨n1, n2⟩ := nxt
        exact ih n1 n2 (p :: acc) (by omega) (by omega) (by omega)
      · rcases Nat.eq_zero_or_pos i with h0 | h0
        · subst h0
          have hj1 : 1 ≤ j := by omega
          rw [step_border_left A hw hloc hs1 j hj1 h2]
          exact ih 0 (j - 1) _ (by omega) (by omega) (by omega)
        · have hj0 : j = 0 := by omega
          subst hj0
          rw [step_border_up A hw hloc hs2 i h0 h1]
          exact ih (i - 1) 0 _ (by omega) (by omega) (by omega)

/-- The traceback iteration at the origin is always stuck: all three
neighbour indices are filtered out. -/
theorem tracebackStep_origin (A : Aligner) (M : Mat) (value : ℚ) :
    tracebackStep A M (0, 0) value = .stuck := by
  unfold tracebackStep
  rw [if_pos ⟨rfl, rfl⟩]

/-- With the zero table in local mode and nonempty sequences, every local
walk from an in-range coordinate finishes: a nonzero cell is interior and its
maximum-attaining candidate yields a move, a zero cell ends the walk within
one more iteration. -/
theorem localLoop_done (A : Aligner) (hw : A.weights = zeroTable)
    (hloc : A.localMode = true) (hs1 : A.seq1 ≠ []) (hs2 : A.seq2 ≠ []) :
    ∀ s v cur acc, cur.1 ≤ A.seq1.length → cur.2 ≤ A.seq2.length → cur.1 + cur.2 ≤ s →
      ∃ acc2, (localLoop A (alignMatrix A) (s + 2) v cur acc).1 = .done acc2 := by
  intro s
  induction s with
  | zero =>
    intro v cur acc h1 h2 h3
    by_cases hv : v = 0
    · subst hv
      exact ⟨acc, by rw [localLoop_zeroPrev]⟩
    · obtain ⟨c1, c2⟩ := cur
      have e1 : c1 = 0 := by omega
      have e2 : c2 = 0 := by omega
      subst e1
      subst e2
      rw [localLoop_succ A (alignMatrix A) 1 v (0, 0) acc hv,
        tracebackStep_origin A (alignMatrix A)]
      dsimp only
      rw [localBorder_zero A hloc 0 0 (Or.inl rfl), localLoop_zeroPrev]
      exact ⟨acc, rfl⟩
  | succ s ih =>
    intro v cur acc h1 h2 h3
    by_cases hv : v = 0
    · subst hv
      exact ⟨acc, by rw [localLoop_zeroPrev]⟩
    · rw [localLoop_succ A (alignMatrix A) (s + 2) v cur acc hv]
      by_cases hz : alignMatrix A cur.1 cur.2 = 0
      · rcases hstep : tracebackStep A (alignMatrix A) cur (alignMatrix A cur.1 cur.2)
          with _ | _ | ⟨p, nxt⟩ <;> dsimp only
        · exact absurd hstep
            (tracebackStep_no_raise A (alignMatrix A) cur _ h1 h2 hs1 hs2)
        · rw [hz, localLoop_zeroPrev]
          exact ⟨acc, rfl⟩
        · rw [hz, localLoop_zeroPrev]
          exact ⟨p :: acc, rfl⟩
      · have hi1 : 1 ≤ cur.1 := by
          rcases Nat.eq_zero_or_pos cur.1 with h0 | h0
          · exact absurd (localBorder_zero A hloc cur.1 cur.2 (Or.inl h0)) hz
          · exact h0
        have hj1 : 1 ≤ cur.2 := by
          rcases Nat.eq_zero_or_pos cur.2 with h0 | h0
          · exact absurd (localBorder_zero A hloc cur.1 cur.2 (Or.inr h0)) hz
          · exact h0
        have hcell : alignMatrix A cur.1 cur.2 = cell A (alignMatrix A) cur.1 cur.2 := by
          have hfix := alignMatrix_interior A cur.1 cur.2 hi1 h1 hj1 h2
          rw [check_non_negativity, if_pos hloc] at hfix
          rcases max_cases (0 : ℚ) (cell A (alignMatrix A) cur.1 cur.2) with ⟨he, -⟩ | ⟨he, -⟩
          · exact absurd (hfix.trans he) hz
          · exact hfix.trans he
        obtain ⟨p, nxt, hstep⟩ :=
          step_succeeds A (alignMatrix A) cur.1 cur.2 hw hi1 hj1 h1 h2 _ hcell
        obtain ⟨hb1, hb2, hb3⟩ :=
          tracebackStep_move_bounds A (alignMatrix A) (cur.1, cur.2) _ p nxt hstep
        rw [show ((cur.1, cur.2) : Nat × Nat) = cur from rfl] at hstep
        rw [hstep]
        dsimp only
        obtain ⟨acc2, hr⟩ := ih (alignMatrix A cur.1 cur.2) nxt (p :: acc)
          (by omega) (by omega) (by omega)
        exact ⟨acc2, hr⟩

/-- C8 (amended).  With the synthesized zero substitution table the traceback
walks terminate: in global mode with nonempty sequences the walk from
`(len(seq1), len(seq2))` reaches (0,0) within `len(seq1)+len(seq2)` moves, and
in local mode every walk of `select_local_alignment` finishes.  The
restrictions are forced: with a loaded symbol-dependent table fill and
traceback evaluate different scores and the global loop spins forever
(`C8_counterexample`), and with an empty sequence the global traceback raises
(`C6_empty_seq1_raises`). -/
theorem C8_zero_table_termination (A : Aligner) (hw : A.weights = zeroTable) :
    (A.localMode = false → A.seq1 ≠ [] → A.seq2 ≠ [] →
      (select_global_alignment A (A.seq1.length + A.seq2.length + 1)).isDone) ∧
    (A.localMode = true → ∀ c ∈ argmaxCoords A,
      (localLoop A (alignMatrix A) (A.seq1.length + A.seq2.length + 2)
        (alignMatrix A c.1 c.2) c []).1.isDone) := by
  constructor
  · intro hloc hs1 hs2
    obtain ⟨acc2, h⟩ := globalLoop_done A hw hloc hs1 hs2
      (A.seq1.length + A.seq2.length) A.seq1.length A.seq2.length []
      le_rfl le_rfl le_rfl
    rw [select_global_alignment, h]
    trivial
  · intro hloc c hc
    have hmem : c ∈ allCoords A := List.mem_of_mem_filter hc
    have hbounds := (mem_allCoords A c).mp hmem
    by_cases hs : A.seq1 = [] ∨ A.seq2 = []
    · have hzc : alignMatrix A c.1 c.2 = 0 := by
        rcases hs with hs | hs
        · refine localBorder_zero A hloc c.1 c.2 (Or.inl ?_)
          have := hbounds.1
          rw [hs] at this
          simpa using this
        · refine localBorder_zero A hloc c.1 c.2 (Or.inr ?_)
          have := hbounds.2
          rw [hs] at this
          simpa using this
      rw [hzc, localLoop_zeroPrev]
      trivial
    · push_neg at hs
      obtain ⟨acc2, h⟩ := localLoop_done A hw hloc hs.1 hs.2
        (A.seq1.length + A.seq2.length) (alignMatrix A c.1 c.2) c []
        hbounds.1 hbounds.2 (by omega)
      rw [h]
      trivial

/-- Global aligner for `seq1="A"`, `seq2="A"` with the default scheme and no
substitution table. -/
def alignerAAzero : Aligner :=
  ⟨['A'], ['A'], 1, -1, -1, zeroTable, false⟩

/-- C8 witness: the global walk on `alignerAAzero` finishes with fuel 3, and
the local walk of `alignerABA` from its maximising start (1,1) finishes with
fuel 5. -/
theorem C8_witness :
    (select_global_alignment alignerAAzero 3).isDone ∧
    (localLoop alignerABA (alignMatrix alignerABA) 5
      (alignMatrix alignerABA 1 1) (1, 1) []).1.isDone := by
  constructor
  · exact (C8_zero_table_termination alignerAAzero rfl).1 rfl (by decide) (by decide)
  · refine (C8_zero_table_termination alignerABA rfl).2 rfl (1, 1) ?_
    norm_num +decide [argmaxCoords, allCoords, matrixMax, alignMatrix, fillAll, fillRow,
      fillCell, cell, cellCands, init_matrix, check_non_negativity, alignerABA, zeroTable]
